import Mathlib

/-!
# Verification of the FHIR test-case extraction service

Shallow embedding of the test-case generation service:

* `clean_json_response` (src/invoke_sdk.py, lines 43-60): the response
  normalizer that strips markdown code fences and slices the text between the
  first opening brace and the last closing brace.
* `super_simple_extraction` (src/main_sdk.py, lines 19-79): the per-record
  regex recovery pass.
* `generate_test_cases` (src/main_sdk.py, lines 81-149): the endpoint logic
  after the external model call, modelled from the point where the cleaned
  text is parsed (`afterParse`): the fast path that returns strictly parsed
  JSON verbatim, the recovery path with its statistics block, and the
  insufficient-result error.

Python strings are modelled as `List Char` (Python slices by code points, as
does `List Char`); machine-independent `Nat`/`Int` arithmetic matches Python
integers on the nonnegative ranges used here.  The concrete regexes of the
source are hand-compiled to deterministic scanners; each scanner carries a
comment relating it to the regex it implements, including the backtracking
analysis where the preference order of the regex engine matters.  Recursions that
skip more than one character use an explicit fuel argument equal to the input
length; every recursive step consumes at least one character, so the fuel
never runs out, and exhausted fuel returns the conservative value.
-/

namespace FhirExtract

/-- Python `\s` on ASCII text (also the whitespace set of `str.strip`):
space, tab, newline, carriage return, vertical tab, form feed. -/
def isPyWs (c : Char) : Bool :=
  c == ' ' || c == '\t' || c == '\n' || c == '\r' || c == '\x0b' || c == '\x0c'

/-- Match a literal list of characters at the head of the input; on success
return the remaining input.  Used for every literal part of the source
regexes (all of them are literals after `re.escape`). -/
def matchLit : List Char → List Char → Option (List Char)
  | [], cs => some cs
  | _ :: _, [] => none
  | l :: ls, c :: cs => if c == l then matchLit ls cs else none

/-- Greedy `\s*`: drop the maximal whitespace prefix. -/
def skipWs : List Char → List Char
  | [] => []
  | c :: cs => if isPyWs c then skipWs cs else c :: cs

/-- Greedy `\s*` remembering the consumed run: maximal whitespace prefix and
the remainder. -/
def spanWs : List Char → List Char × List Char
  | [] => ([], [])
  | c :: cs =>
    if isPyWs c then
      let (w, r) := spanWs cs
      (c :: w, r)
    else ([], c :: cs)

/-- Greedy `[^"]*`: the maximal run of non-quote characters and the
remainder (which is empty or starts with a quote). -/
def spanNonQuote : List Char → List Char × List Char
  | [] => ([], [])
  | c :: cs =>
    if c == '"' then ([], c :: cs)
    else
      let (r, rest) := spanNonQuote cs
      (c :: r, rest)

/-- Lazy `(.*?)\]` under `re.DOTALL`: the run of characters before the first
closing bracket. -/
def spanNonRBracket : List Char → List Char × List Char
  | [] => ([], [])
  | c :: cs =>
    if c == ']' then ([], c :: cs)
    else
      let (r, rest) := spanNonRBracket cs
      (c :: r, rest)

/-- The literal `"TestCaseID"` including its quotes. -/
def idKeyLit : List Char := "\"TestCaseID\"".toList

/-- One match of `"TestCaseID"\s*:\s*"([^"]+)"` anchored at the head of the
input (src/main_sdk.py line 24).  Returns the capture and the input remaining
after the full match.  The greedy `[^"]+` runs to the next quote, which must
exist and close the value; the capture must be nonempty. -/
def matchIdAt (cs : List Char) : Option (String × List Char) := do
  let r1 ← matchLit idKeyLit cs
  let r2 ← matchLit [':'] (skipWs r1)
  let r3 ← matchLit ['"'] (skipWs r2)
  let (body, r4) := spanNonQuote r3
  if body.isEmpty then none
  else do
    let r5 ← matchLit ['"'] r4
    pure (String.mk body, r5)

/-- `re.findall` for the pattern of `matchIdAt`: scan left to right, collect
captures of non-overlapping matches, resuming after each full match
(src/main_sdk.py line 24).  Fuel: each step consumes at least one character. -/
def findAllIdsGo : Nat → List Char → List String
  | 0, _ => []
  | _ + 1, [] => []
  | fuel + 1, c :: rest =>
    match matchIdAt (c :: rest) with
    | some (tcid, after) => tcid :: findAllIdsGo fuel after
    | none => findAllIdsGo fuel rest

def findAllIds (cs : List Char) : List String := findAllIdsGo cs.length cs

/-- Does `"TestCaseID"\s*:\s*"<tcid>"` (the `re.escape`d search pattern of
src/main_sdk.py line 31) match at the head of the input? -/
def matchIdLitAt (tcid : List Char) (cs : List Char) : Bool :=
  (do
    let r1 ← matchLit idKeyLit cs
    let r2 ← matchLit [':'] (skipWs r1)
    let r3 ← matchLit ['"'] (skipWs r2)
    let r4 ← matchLit tcid r3
    matchLit ['"'] r4).isSome

/-- `re.search(...).start()` for the pattern of `matchIdLitAt`: index of the
leftmost position where it matches (src/main_sdk.py lines 32-36). -/
def searchIdFrom (tcid : List Char) : List Char → Nat → Option Nat
  | [], _ => none
  | c :: rest, i =>
    if matchIdLitAt tcid (c :: rest) then some i
    else searchIdFrom tcid rest (i + 1)

/-- One match of `"<key>"\s*:\s*"(body)"` anchored at the head of the input,
returning the captured body.

This implements both scalar-field regexes of src/main_sdk.py:
`"<key>"\s*:\s*"([^"]*)"` (lines 45-46) directly, and
`"<key>"\s*:\s*"([^"]*(?:\\.[^"]*)*)"` (lines 42-44) by compiling away the
dead escape group: after the opening quote the greedy `[^"]*` always runs to
the first quote or the end; at a quote the `(?:\\.[^"]*)` iteration cannot
start (it needs a backslash), so the engine immediately closes the match with
that quote.  Hence both regexes capture exactly the run of non-quote
characters before the first subsequent quote, and fail when no closing quote
exists. -/
def matchKeyStringAt (key : List Char) (cs : List Char) : Option String := do
  let r1 ← matchLit ('"' :: (key ++ ['"'])) cs
  let r2 ← matchLit [':'] (skipWs r1)
  let r3 ← matchLit ['"'] (skipWs r2)
  let (body, r4) := spanNonQuote r3
  let _ ← matchLit ['"'] r4
  pure (String.mk body)

/-- `re.search` for `matchKeyStringAt`: capture of the leftmost match. -/
def searchKeyString (key : List Char) : List Char → Option String
  | [] => none
  | c :: rest =>
    match matchKeyStringAt key (c :: rest) with
    | some s => some s
    | none => searchKeyString key rest

/-- One match of `"TestSteps"\s*:\s*\[(.*?)\]` (re.DOTALL) anchored at the
head of the input (src/main_sdk.py line 49): the lazy capture is the content
before the first closing bracket, which must exist. -/
def matchStepsAt (cs : List Char) : Option (List Char) := do
  let r1 ← matchLit "\"TestSteps\"".toList cs
  let r2 ← matchLit [':'] (skipWs r1)
  let r3 ← matchLit ['['] (skipWs r2)
  let (content, r4) := spanNonRBracket r3
  let _ ← matchLit [']'] r4
  pure content

/-- `re.search` for `matchStepsAt`: content of the leftmost match. -/
def searchSteps : List Char → Option (List Char)
  | [] => none
  | c :: rest =>
    match matchStepsAt (c :: rest) with
    | some content => some content
    | none => searchSteps rest

/-- The re.findall over steps_content with the quoted-string pattern
`"([^"]*(?:\\.[^"]*)*)"` (src/main_sdk.py
line 54): every quoted string in the block, in order, each capture being the
run up to the next quote (the escape group is dead as in
`matchKeyStringAt`); scanning resumes after each closing quote.  Fuel: each
step consumes at least one character. -/
def quotedStringsGo : Nat → List Char → List String
  | 0, _ => []
  | _ + 1, [] => []
  | fuel + 1, c :: rest =>
    if c == '"' then
      let (body, r) := spanNonQuote rest
      match r with
      | '"' :: after => String.mk body :: quotedStringsGo fuel after
      | _ => quotedStringsGo fuel rest
    else quotedStringsGo fuel rest

def quotedStrings (cs : List Char) : List String := quotedStringsGo cs.length cs

/-- The fixed three-step fallback sequence (src/main_sdk.py line 58). -/
def defaultSteps : List String :=
  ["Execute test validation", "Verify expected behavior", "Confirm test results"]

/-- The steps computation of src/main_sdk.py lines 49-58: search the window
for the bracketed steps block, collect its quoted strings, and substitute the
default sequence when the result is empty (block absent, or present with no
quoted strings). -/
def stepsOf (chunk : List Char) : List String :=
  let steps : List String :=
    match searchSteps chunk with
    | some content => quotedStrings content
    | none => []
  if steps.isEmpty then defaultSteps else steps

/-- A recovered test case: the dict literal of src/main_sdk.py lines 61-69
always populates all seven keys, so a structure is a faithful model. -/
structure TestCase where
  TestCaseID : String
  TestDescription : String
  ExpectedOutput : String
  TestSteps : List String
  PassFailCriteria : String
  TestCaseType : String
  Subtype : String
deriving DecidableEq, Repr

/-- The loop body for one identifier (src/main_sdk.py lines 29-72, the `try`
block).  `Except String` records that in Python the body runs under a
`try`/`except Exception`; every operation of the body is total, so no error
value is ever produced, and `.ok none` is the `continue` of line 34 (search
failed).  The window is the 1000-character slice after the first occurrence
of the identifier (lines 36-39); each field is searched independently in the
window and defaulted when unmatched (lines 42-69). -/
def processTestCaseId (text : List Char) (tcid : String) : Except String (Option TestCase) := do
  match searchIdFrom tcid.toList text 0 with
  | none => pure none
  | some start =>
    let chunk := (text.drop start).take 1000
    let descM := searchKeyString "TestDescription".toList chunk
    let outputM := searchKeyString "ExpectedOutput".toList chunk
    let criteriaM := searchKeyString "PassFailCriteria".toList chunk
    let typeM := searchKeyString "TestCaseType".toList chunk
    let subtypeM := searchKeyString "Subtype".toList chunk
    let steps := stepsOf chunk
    pure (some
      { TestCaseID := tcid
        TestDescription := descM.getD ("Validation test for " ++ tcid)
        ExpectedOutput := outputM.getD "Expected system behavior validated"
        TestSteps := steps
        PassFailCriteria := criteriaM.getD "Test passes when validation criteria are met"
        TestCaseType := typeM.getD "FUNCTIONAL"
        Subtype := subtypeM.getD "POSITIVE" })

/-- The accumulation loop of src/main_sdk.py lines 28-76, abstracted over the
body so the `try`/`except`/`continue` structure is explicit: a body success
appends its record, the `continue` of line 34 skips, and a body exception is
caught and skipped (lines 74-76), never propagated. -/
def extractionLoop (body : String → Except String (Option TestCase)) :
    List String → List TestCase
  | [] => []
  | tcid :: rest =>
    match body tcid with
    | .ok (some tc) => tc :: extractionLoop body rest
    | .ok none => extractionLoop body rest
    | .error _ => extractionLoop body rest

/-- `super_simple_extraction` (src/main_sdk.py lines 19-79): find every
`TestCaseID` capture, then run the per-identifier body over the list. -/
def super_simple_extraction (text : String) : List TestCase :=
  extractionLoop (processTestCaseId text.toList) (findAllIds text.toList)

/-! ## The JSON data model

Values produced by `json.loads` (Python standard library, external to the
repository).  Objects parsed by `json.loads` carry one entry per key, so an
association list with first-match lookup models a Python dict faithfully.
The numbers appearing in the claims are integers. -/

inductive Json where
  | null
  | bool (b : Bool)
  | num (n : Int)
  | str (s : String)
  | arr (elems : List Json)
  | obj (fields : List (String × Json))

/-- Dict lookup on the fields of a parsed object. -/
def lookupField : List (String × Json) → String → Option Json
  | [], _ => none
  | (k, v) :: rest, key => if k == key then some v else lookupField rest key

def listIsPrefixOf : List Char → List Char → Bool
  | [], _ => true
  | _ :: _, [] => false
  | a :: as, b :: bs => a == b && listIsPrefixOf as bs

/-- Substring test, for the Python `in` operator on strings. -/
def containsSub (needle hay : List Char) : Bool :=
  match hay with
  | [] => needle.isEmpty
  | _ :: rest => listIsPrefixOf needle hay || containsSub needle rest

/-- Python `key in value` for a parsed JSON value: key membership on a dict,
element membership on a list (only a string element can equal the key),
substring test on a string; `none` is the `TypeError` raised on the other
types. -/
def pyContains : Json → String → Option Bool
  | .obj fs, k => some (fs.any (fun p => p.1 == k))
  | .arr xs, k => some (xs.any (fun j => match j with | .str s => s == k | _ => false))
  | .str s, k => some (containsSub k.toList s.toList)
  | _, _ => none

/-- Python `len(value)`; `none` is the `TypeError` on unsized values. -/
def pyLen : Json → Option Nat
  | .str s => some s.length
  | .arr xs => some xs.length
  | .obj fs => some fs.length
  | _ => none

/-- Python `value[key]` with a string key; `none` covers the `KeyError` on a
missing dict key and the `TypeError` on non-dict values. -/
def pySubscript : Json → String → Option Json
  | .obj fs, k => lookupField fs k
  | _, _ => none

/-! ## Statistics block (src/main_sdk.py lines 119-139) -/

/-- `d[k] = d.get(k, 0) + 1` on an insertion-ordered dict. -/
def bump : List (String × Nat) → String → List (String × Nat)
  | [], k => [(k, 1)]
  | (k0, v) :: rest, k =>
    if k0 == k then (k0, v + 1) :: rest else (k0, v) :: bump rest k

/-- The counting loop of src/main_sdk.py lines 124-128: one pass over the
records, incrementing the `TestCaseType` tally and the `Subtype` tally.  The
`tc.get(..., default)` calls always find their key, because every record
built by `super_simple_extraction` carries all seven keys. -/
def tallies (tcs : List TestCase) : List (String × Nat) × List (String × Nat) :=
  tcs.foldl (fun acc tc => (bump acc.1 tc.TestCaseType, bump acc.2 tc.Subtype)) ([], [])

def TestCase.toJson (tc : TestCase) : Json :=
  .obj [("TestCaseID", .str tc.TestCaseID),
        ("TestDescription", .str tc.TestDescription),
        ("ExpectedOutput", .str tc.ExpectedOutput),
        ("TestSteps", .arr (tc.TestSteps.map Json.str)),
        ("PassFailCriteria", .str tc.PassFailCriteria),
        ("TestCaseType", .str tc.TestCaseType),
        ("Subtype", .str tc.Subtype)]

def countsToJson (counts : List (String × Nat)) : Json :=
  .obj (counts.map (fun p => (p.1, Json.num p.2)))

/-- The result document built by the recovery path (src/main_sdk.py lines
130-139); `//` is integer floor division, `Nat` division on these
nonnegative counts. -/
def buildResultJson (tcs : List TestCase) : Json :=
  let counts := tallies tcs
  .obj [("TestCases", .arr (tcs.map TestCase.toJson)),
        ("StatisticalSummary", .obj
          [("TotalTestCases", .num tcs.length),
           ("MappingRows", .num (tcs.length / 3)),
           ("UniqueAttributes", .num (tcs.length / 3)),
           ("TestCaseTypeBreakdown", countsToJson counts.1),
           ("SubtypeBreakdown", countsToJson counts.2)])]

/-! ## The endpoint logic after parsing (src/main_sdk.py lines 107-145) -/

/-- Outcome of `generate_test_cases` after the cleaned text is available:
`direct` is the verbatim return of the parsed document (line 112),
`recovered` the document built from the recovery pass (line 142),
`insufficient` the HTTP 500 of line 145 carrying the recovered count, and
`typeError` an exception from `len`/`[]`/`in` on an unexpected shape, which
is not a `JSONDecodeError` and therefore propagates to the outer handler
(lines 147-149). -/
inductive GenOutcome where
  | direct (j : Json)
  | recovered (j : Json)
  | insufficient (n : Nat)
  | typeError

/-- The recovery branch (src/main_sdk.py lines 117-145): run the per-record
extraction, and build the statistics document only when more than five
records were recovered. -/
def recoveryStage (cleaned : String) : GenOutcome :=
  let tcs := super_simple_extraction cleaned
  if tcs.length > 5 then .recovered (buildResultJson tcs) else .insufficient tcs.length

/-- src/main_sdk.py lines 107-145 from the point where `json.loads(cleaned)`
has been attempted: `parsed = none` is the `JSONDecodeError` branch (line
113) and `parsed = some result` the successful parse, after which the guard
`"TestCases" in result and len(result["TestCases"]) > 5` (line 110) either
returns `result` verbatim or falls through to the recovery branch.  The
parser itself is the Python standard library, external to the repository, so
the pipeline is modelled as a function of its result. -/
def afterParse (parsed : Option Json) (cleaned : String) : GenOutcome :=
  match parsed with
  | none => recoveryStage cleaned
  | some result =>
    match pyContains result "TestCases" with
    | none => .typeError
    | some false => recoveryStage cleaned
    | some true =>
      match pySubscript result "TestCases" with
      | none => .typeError
      | some v =>
        match pyLen v with
        | none => .typeError
        | some n => if n > 5 then .direct result else recoveryStage cleaned

/-! ## The response normalizer (src/invoke_sdk.py lines 43-60)

`clean_json_response` runs two `re.sub` passes with `re.MULTILINE`, strips
whitespace, and slices from the first `{` to the last `}`.  The subs are
modelled by a scanner that walks the text tracking whether the current
position is a line start (position zero, or preceded by a newline in the
original text, exactly the `^` anchor of `re.MULTILINE`). -/

/-- A match of `` ```json\s* `` anchored at the head of the input: the
literal fence tag, then the greedy whitespace run.  Returns the remaining
input, and whether the position after the match is a line start (true
exactly when the last consumed character is a newline). -/
def matchFenceJson (cs : List Char) : Option (Bool × List Char) := do
  let r1 ← matchLit "```json".toList cs
  let (w, r2) := spanWs r1
  pure (w.getLast? == some '\n', r2)

/-- Split a list just before its last newline: `some (pre, post)` with the
input equal to `pre ++ post` and `post` starting at the last newline, or
`none` when the list has no newline. -/
def splitAtLastNl : List Char → Option (List Char × List Char)
  | [] => none
  | c :: cs =>
    match splitAtLastNl cs with
    | some (pre, post) => some (c :: pre, post)
    | none => if c == '\n' then some ([], c :: cs) else none

/-- A match of `` ```\s*$ `` anchored at the head of the input.  The greedy
`\s*` first takes the whole whitespace run `w`; `$` holds there only at the
end of the input (a maximal run is followed by a non-whitespace character
otherwise).  Failing that, the engine backtracks to the longest prefix of
`w` followed by a newline, i.e. the part of `w` before its last newline;
with no newline in `w` the match fails.  Returns the remaining input (which
keeps the terminating newline, as `$` is a lookahead) and the line-start
flag for the continuation position. -/
def matchFencePlain (cs : List Char) : Option (Bool × List Char) := do
  let r1 ← matchLit "```".toList cs
  let (w, r2) := spanWs r1
  match r2 with
  | [] => pure (true, [])
  | _ =>
    match splitAtLastNl w with
    | none => none
    | some (pre, post) => pure (pre.getLast? == some '\n', post ++ r2)

/-- The re.sub of a fence pattern by the empty replacement under
re.MULTILINE: at
each line start try the matcher and drop its consumed span, resuming after
it; everywhere else copy the character.  Fuel: the matchers consume at least
three characters, so each step consumes at least one. -/
def fenceSubGo (m : List Char → Option (Bool × List Char)) :
    Nat → Bool → List Char → List Char
  | 0, _, cs => cs
  | _ + 1, _, [] => []
  | fuel + 1, atStart, c :: rest =>
    if atStart then
      match m (c :: rest) with
      | some (nl, after) => fenceSubGo m fuel nl after
      | none => c :: fenceSubGo m fuel (c == '\n') rest
    else c :: fenceSubGo m fuel (c == '\n') rest

/-- src/invoke_sdk.py line 49. -/
def subJsonFence (cs : List Char) : List Char :=
  fenceSubGo matchFenceJson cs.length true cs

/-- src/invoke_sdk.py line 50. -/
def subPlainFence (cs : List Char) : List Char :=
  fenceSubGo matchFencePlain cs.length true cs

/-- Python `str.strip()` on ASCII text: drop whitespace from both ends. -/
def pyStrip (cs : List Char) : List Char :=
  ((cs.dropWhile isPyWs).reverse.dropWhile isPyWs).reverse

/-- Python `str.find`: index of the first occurrence, `none` for -1. -/
def pyFind (c : Char) : List Char → Option Nat
  | [] => none
  | x :: xs => if x == c then some 0 else (pyFind c xs).map (· + 1)

/-- src/invoke_sdk.py lines 53-58: `find('{')`, `rfind('}')` (the first
occurrence in the reversed text, re-indexed), and the inclusive slice when
both exist with the closing brace strictly after the opening one. -/
def braceSlice (cs : List Char) : List Char :=
  match pyFind '{' cs, pyFind '}' cs.reverse with
  | some s, some j =>
    let e := cs.length - 1 - j
    if e > s then (cs.drop s).take (e - s + 1) else cs
  | _, _ => cs

/-- `clean_json_response` (src/invoke_sdk.py lines 43-60) on character
lists; the leading `if not response` returns empty input unchanged. -/
def cleanList (cs : List Char) : List Char :=
  if cs.isEmpty then cs
  else braceSlice (pyStrip (subPlainFence (subJsonFence cs)))

def clean_json_response (s : String) : String := String.mk (cleanList s.toList)

/-! ## Auxiliary predicates and concrete inputs used by the theorems -/

/-- Dict lookup into a tally built by `bump` (`d.get(k)` semantics). -/
def lookupCount : List (String × Nat) → String → Option Nat
  | [], _ => none
  | (k0, v) :: rest, k => if k0 == k then some v else lookupCount rest k

/-- Sum of the values of a tally, `sum(d.values())`. -/
def sumCounts (counts : List (String × Nat)) : Nat := (counts.map Prod.snd).sum

/-- All seven fields of a record populated and non-empty (the completeness
invariant claimed by the specification). -/
def recordComplete (tc : TestCase) : Bool :=
  !tc.TestCaseID.isEmpty && !tc.TestDescription.isEmpty && !tc.ExpectedOutput.isEmpty &&
  !tc.TestSteps.isEmpty && !tc.PassFailCriteria.isEmpty && !tc.TestCaseType.isEmpty &&
  !tc.Subtype.isEmpty

/-- Does some line of the text start with three backticks?  `noFenceLines b cs`
is true when no line does, where `b` says whether the first position is a
line start. -/
def isTripleBacktick (cs : List Char) : Bool := (matchLit "```".toList cs).isSome

def noFenceLines : Bool → List Char → Bool
  | _, [] => true
  | atStart, c :: rest =>
    (!atStart || !isTripleBacktick (c :: rest)) && noFenceLines (c == '\n') rest

/-- Input with an explicitly empty TestDescription value. -/
def c2text : String := "\"TestCaseID\": \"TC1\", \"TestDescription\": \"\""

/-- The record recovered from `c2text`. -/
def c2tc : TestCase :=
  { TestCaseID := "TC1", TestDescription := "",
    ExpectedOutput := "Expected system behavior validated",
    TestSteps := defaultSteps,
    PassFailCriteria := "Test passes when validation criteria are met",
    TestCaseType := "FUNCTIONAL", Subtype := "POSITIVE" }

/-- Input with two occurrences of the identifier X carrying different
descriptions. -/
def c3text : String :=
  "\"TestCaseID\": \"X\", \"TestDescription\": \"first\" \"TestCaseID\": \"X\", \"TestDescription\": \"second\""

/-- Input whose TestCaseType and Subtype values are outside the recognized
enumerations. -/
def c6text : String :=
  "\"TestCaseID\": \"TC2\", \"TestCaseType\": \"BANANA\", \"Subtype\": \"WEIRD\""

/-- Input carrying only an identifier, so both enumeration fields are
absent. -/
def c6textMissing : String := "\"TestCaseID\": \"TC9\""

/-- Six identifiers with no explicit type or subtype: every recovered record
is FUNCTIONAL / POSITIVE, and the batch is large enough for the recovery
path to build statistics. -/
def c5text : String :=
  "\"TestCaseID\":\"A1\" \"TestCaseID\":\"A2\" \"TestCaseID\":\"A3\" \"TestCaseID\":\"A4\" \"TestCaseID\":\"A5\" \"TestCaseID\":\"A6\""

/-- A window containing a present-but-empty TestSteps block. -/
def c10chunk : List Char := "\"TestSteps\": []".toList

/-- A parsed document with six TestCases and no StatisticalSummary member. -/
def c9doc : Json := Json.obj [("TestCases", Json.arr (List.replicate 6 (Json.obj [])))]

/-- A parsed document whose own summary total (999) contradicts the length
of its TestCases array (6). -/
def c4doc : Json :=
  Json.obj [("TestCases", Json.arr (List.replicate 6 (Json.obj []))),
            ("StatisticalSummary", Json.obj [("TotalTestCases", Json.num 999)])]

/-- A parsed document with six non-empty TestCases and a StatisticalSummary,
instantiating the fast-path hypotheses. -/
def c1fields : List (String × Json) :=
  [("TestCases", Json.arr (List.replicate 6 (Json.obj [("TestCaseID", Json.str "T")]))),
   ("StatisticalSummary", Json.obj [("TotalTestCases", Json.num 6)])]

/-! ## Helper lemmas -/

theorem lookupField_any {fs : List (String × Json)} {k : String} {v : Json}
    (h : lookupField fs k = some v) : fs.any (fun p => p.1 == k) = true := by
  induction fs with
  | nil => simp [lookupField] at h
  | cons p rest ih =>
    obtain ⟨k0, v0⟩ := p
    by_cases hk : k0 == k
    · simp [List.any_cons, hk]
    · simp only [lookupField, hk] at h
      simp only [List.any_cons, Bool.or_eq_true]
      exact Or.inr (ih (by simpa [lookupField, hk] using h))

theorem matchIdAt_capture_ne {cs : List Char} {tcid : String} {after : List Char}
    (h : matchIdAt cs = some (tcid, after)) : tcid ≠ "" := by
  intro hempty
  subst hempty
  unfold matchIdAt at h
  cases h1 : matchLit idKeyLit cs with
  | none => rw [h1] at h; simp at h
  | some r1 =>
    rw [h1] at h
    simp only [Option.bind_eq_bind, Option.some_bind] at h
    cases h2 : matchLit [':'] (skipWs r1) with
    | none => rw [h2] at h; simp at h
    | some r2 =>
      rw [h2] at h
      simp only [Option.bind_eq_bind, Option.some_bind] at h
      cases h3 : matchLit ['"'] (skipWs r2) with
      | none => rw [h3] at h; simp at h
      | some r3 =>
        rw [h3] at h
        simp only [Option.bind_eq_bind, Option.some_bind] at h
        by_cases hb : (spanNonQuote r3).1.isEmpty
        · simp [hb] at h
        · cases h4 : matchLit ['"'] (spanNonQuote r3).2 with
          | none => rw [h4] at h; simp [hb] at h
          | some r5 =>
            rw [h4] at h
            simp only [hb, if_false, Bool.false_eq_true] at h
            simp at h
            obtain ⟨hmk, -⟩ := h
            exact hb (by simpa [List.isEmpty_iff] using congrArg String.data hmk)

theorem findAllIdsGo_mem_ne :
    ∀ (fuel : Nat) (cs : List Char) (tcid : String),
      tcid ∈ findAllIdsGo fuel cs → tcid ≠ "" := by
  intro fuel
  induction fuel with
  | zero => intro cs tcid h; simp [findAllIdsGo] at h
  | succ fuel ih =>
    intro cs tcid h
    cases cs with
    | nil => simp [findAllIdsGo] at h
    | cons c rest =>
      rw [findAllIdsGo] at h
      cases hm : matchIdAt (c :: rest) with
      | none => rw [hm] at h; exact ih rest tcid h
      | some x =>
        obtain ⟨tcid0, after⟩ := x
        rw [hm] at h
        rcases List.mem_cons.mp h with rfl | h
        · exact matchIdAt_capture_ne hm
        · exact ih after tcid h

theorem stepsOf_ne_nil (chunk : List Char) : stepsOf chunk ≠ [] := by
  unfold stepsOf
  cases hs : searchSteps chunk with
  | none => simp [defaultSteps]
  | some content =>
    by_cases he : (quotedStrings content).isEmpty
    · simp [he, defaultSteps]
    · simp only [he, if_false, Bool.false_eq_true]
      intro hnil
      exact he (by simp [hnil])

theorem processTestCaseId_ok {text : List Char} {tcid : String} {tc : TestCase}
    (h : processTestCaseId text tcid = .ok (some tc)) :
    tc.TestCaseID = tcid ∧ ∃ chunk, tc.TestSteps = stepsOf chunk := by
  unfold processTestCaseId at h
  cases hs : searchIdFrom tcid.toList text 0 with
  | none => rw [hs] at h; simp [pure, Except.pure] at h
  | some start =>
    rw [hs] at h
    simp only [pure, Except.pure, Except.ok.injEq, Option.some.injEq] at h
    subst h
    exact ⟨rfl, (text.drop start).take 1000, rfl⟩

theorem extractionLoop_mem {body : String → Except String (Option TestCase)}
    {ids : List String} {tc : TestCase} (h : tc ∈ extractionLoop body ids) :
    ∃ tcid ∈ ids, body tcid = .ok (some tc) := by
  induction ids with
  | nil => simp [extractionLoop] at h
  | cons tcid rest ih =>
    rw [extractionLoop] at h
    cases hb : body tcid with
    | ok r =>
      cases r with
      | none =>
        rw [hb] at h
        obtain ⟨t, ht, he⟩ := ih h
        exact ⟨t, List.mem_cons_of_mem _ ht, he⟩
      | some tc0 =>
        rw [hb] at h
        rcases List.mem_cons.mp h with rfl | h
        · exact ⟨tcid, List.mem_cons_self _ _, hb⟩
        · obtain ⟨t, ht, he⟩ := ih h
          exact ⟨t, List.mem_cons_of_mem _ ht, he⟩
    | error e =>
      rw [hb] at h
      obtain ⟨t, ht, he⟩ := ih h
      exact ⟨t, List.mem_cons_of_mem _ ht, he⟩

/-- Every record produced by the extraction has a nonempty identifier (the
findall capture is `[^"]+`) and a nonempty steps list (the default sequence
replaces an empty collection).  Shared skeleton behind the claims about
record completeness. -/
theorem mem_extraction_core {text : String} {tc : TestCase}
    (h : tc ∈ super_simple_extraction text) :
    tc.TestCaseID ≠ "" ∧ tc.TestSteps ≠ [] := by
  obtain ⟨tcid, hmem, hbody⟩ := extractionLoop_mem h
  obtain ⟨hid, chunk, hsteps⟩ := processTestCaseId_ok hbody
  constructor
  · rw [hid]; exact findAllIdsGo_mem_ne _ _ _ hmem
  · rw [hsteps]; exact stepsOf_ne_nil chunk

/-- The extraction loop over any body equals a filterMap collecting the
per-identifier successes; helper behind the fault-isolation claim. -/
theorem extractionLoop_eq_filterMap
    (body : String → Except String (Option TestCase)) (ids : List String) :
    extractionLoop body ids
      = ids.filterMap (fun tcid =>
          match body tcid with
          | .ok r => r
          | .error _ => none) := by
  induction ids with
  | nil => rfl
  | cons tcid rest ih =>
    rw [extractionLoop]
    cases hb : body tcid with
    | ok r => cases r <;> simp [List.filterMap_cons, hb, ih]
    | error e => simp [List.filterMap_cons, hb, ih]

/-! ## Claim theorems -/

/-- Claim C1 (confirmed).  Fast-path equivalence: whenever the cleaned text
strictly parses to a JSON object whose TestCases member is an array of
length greater than five and which carries a StatisticalSummary member, the
endpoint returns exactly the parsed document (`GenOutcome.direct` with the
very same value, hence the same TestCases array and the same
StatisticalSummary), and the per-record recovery pass is not invoked
(`recoveryStage`, the only place calling `super_simple_extraction`, is
reached only in the other outcomes). -/
theorem fastPath_passthrough (fs : List (String × Json)) (xs : List Json) (ss : Json)
    (cleaned : String)
    (htc : lookupField fs "TestCases" = some (Json.arr xs))
    (hlen : 5 < xs.length)
    (hss : lookupField fs "StatisticalSummary" = some ss) :
    afterParse (some (Json.obj fs)) cleaned = .direct (Json.obj fs) := by
  unfold afterParse
  simp [pyContains, lookupField_any htc, pySubscript, htc, pyLen, hlen]

/-- Witness for C1: the fast-path theorem applied to a concrete six-record
document with a StatisticalSummary. -/
theorem fastPath_passthrough_witness :
    lookupField c1fields "TestCases"
        = some (Json.arr (List.replicate 6 (Json.obj [("TestCaseID", Json.str "T")]))) ∧
    5 < (List.replicate 6 (Json.obj [("TestCaseID", Json.str "T")])).length ∧
    lookupField c1fields "StatisticalSummary"
        = some (Json.obj [("TotalTestCases", Json.num 6)]) ∧
    afterParse (some (Json.obj c1fields)) "" = .direct (Json.obj c1fields) :=
  ⟨rfl, by decide, rfl, fastPath_passthrough c1fields _ _ "" rfl (by decide) rfl⟩

/-- Claim C9 (confirmed).  The fast path accepts a strictly parsed object
whose TestCases member has more than five elements without checking for a
StatisticalSummary key or validating any record: the concrete document
`c9doc` has no StatisticalSummary member and its six records carry no fields
at all, yet it is returned verbatim. -/
theorem fast_path_skips_validation :
    afterParse (some c9doc) "" = .direct c9doc ∧
    pySubscript c9doc "StatisticalSummary" = none ∧
    pyContains c9doc "StatisticalSummary" = some false ∧
    pySubscript c9doc "TestCases" = some (Json.arr (List.replicate 6 (Json.obj []))) ∧
    pySubscript (Json.obj []) "TestCaseID" = none :=
  ⟨rfl, rfl, rfl, rfl, rfl⟩

/-- Counterexample to claim C3.  On an input with two occurrences of the
identifier X carrying descriptions first and second, the extraction result
does not contain exactly one record for X, and no returned record carries
the description of the later occurrence. -/
theorem duplicate_id_not_single_record :
    ¬ (((super_simple_extraction c3text).filter
          (fun tc => tc.TestCaseID == "X")).length = 1) ∧
    ∀ tc ∈ super_simple_extraction c3text, tc.TestDescription ≠ "second" := by
  constructor
  · decide
  · decide

/-- Claim C3 as amended.  The loop appends one record per occurrence listed
by findall, and resolves every occurrence of a duplicated identifier by
searching from the start of the text, so each copy is extracted from the
window of the first occurrence: the result holds two records for X, both
with the description of the earliest occurrence. -/
theorem duplicate_id_first_window_duplicated :
    (super_simple_extraction c3text).map (fun tc => (tc.TestCaseID, tc.TestDescription))
      = [("X", "first"), ("X", "first")] := by decide

/-- Counterexample to claim C2.  An input whose TestDescription value is the
empty string yields a record with an empty field: the capture group of the
description regex matches the empty string, so the non-empty default is not
substituted. -/
theorem extraction_field_can_be_empty :
    ¬ (∀ tc ∈ super_simple_extraction c2text, recordComplete tc = true) := by decide

/-- Counterexample to claim C6.  Values outside the recognized enumerations
are copied verbatim, not replaced by the defaults. -/
theorem unrecognized_type_not_defaulted :
    ¬ (∀ tc ∈ super_simple_extraction c6text,
        (tc.TestCaseType = "FUNCTIONAL" ∨ tc.TestCaseType = "REGRESSION" ∨
         tc.TestCaseType = "EDGE") ∧
        (tc.Subtype = "POSITIVE" ∨ tc.Subtype = "NEGATIVE")) := by decide

/-- Claim C6 as amended.  The category and subtype fields are the verbatim
captured strings whenever the field pattern matches in the window, whatever
the value; the defaults FUNCTIONAL and POSITIVE are substituted only when
the pattern is absent. -/
theorem type_subtype_verbatim_or_default :
    (super_simple_extraction c6text).map (fun tc => (tc.TestCaseType, tc.Subtype))
        = [("BANANA", "WEIRD")] ∧
    (super_simple_extraction c6textMissing).map (fun tc => (tc.TestCaseType, tc.Subtype))
        = [("FUNCTIONAL", "POSITIVE")] := by
  constructor
  · decide
  · decide

/-- Counterexample to claim C4.  On the fast path the endpoint returns the
parsed document verbatim, including its StatisticalSummary: for `c4doc` the
returned summary total is 999 while the returned TestCases array has six
elements, so the returned total does not equal the length of the returned
record sequence. -/
theorem fast_path_summary_inconsistent :
    afterParse (some c4doc) "" = .direct c4doc ∧
    (pySubscript c4doc "StatisticalSummary").bind
        (fun ss => pySubscript ss "TotalTestCases") = some (Json.num 999) ∧
    (pySubscript c4doc "TestCases").bind pyLen = some 6 ∧
    (999 : Int) ≠ (6 : Int) :=
  ⟨rfl, rfl, rfl, by decide⟩

/-- Counterexample to claim C5.  Statistics derived by the extractor carry
an entry only for values that occur: for the six-record input `c5text`
every record is FUNCTIONAL / POSITIVE, and the recognized values
REGRESSION, EDGE and NEGATIVE are absent from the breakdowns instead of
being present with value zero. -/
theorem breakdown_missing_zero_key :
    (super_simple_extraction c5text).length = 6 ∧
    (tallies (super_simple_extraction c5text)).1 = [("FUNCTIONAL", 6)] ∧
    lookupCount (tallies (super_simple_extraction c5text)).1 "REGRESSION" = none ∧
    lookupCount (tallies (super_simple_extraction c5text)).1 "EDGE" = none ∧
    lookupCount (tallies (super_simple_extraction c5text)).2 "NEGATIVE" = none ∧
    (pySubscript (buildResultJson (super_simple_extraction c5text)) "StatisticalSummary").bind
        (fun ss => pySubscript ss "TestCaseTypeBreakdown")
      = some (countsToJson [("FUNCTIONAL", 6)]) := by
  refine ⟨by decide, by decide, by decide, by decide, by decide, rfl⟩

theorem sumCounts_bump (counts : List (String × Nat)) (k : String) :
    sumCounts (bump counts k) = sumCounts counts + 1 := by
  induction counts with
  | nil => simp [bump, sumCounts]
  | cons p rest ih =>
    obtain ⟨k0, v⟩ := p
    by_cases h : k0 == k <;> simp [bump, h, sumCounts] at ih ⊢ <;> omega

/-- Both tallies of the statistics loop grow their sums by exactly one per
record, whatever the accumulators. -/
theorem talliesAux_sum (tcs : List TestCase) :
    ∀ p : List (String × Nat) × List (String × Nat),
      sumCounts ((tcs.foldl
          (fun acc tc => (bump acc.1 tc.TestCaseType, bump acc.2 tc.Subtype)) p).1)
          = sumCounts p.1 + tcs.length ∧
      sumCounts ((tcs.foldl
          (fun acc tc => (bump acc.1 tc.TestCaseType, bump acc.2 tc.Subtype)) p).2)
          = sumCounts p.2 + tcs.length := by
  induction tcs with
  | nil => intro p; simp
  | cons tc rest ih =>
    intro p
    obtain ⟨h1, h2⟩ := ih (bump p.1 tc.TestCaseType, bump p.2 tc.Subtype)
    have hbeta : (fun (acc : List (String × Nat) × List (String × Nat)) (tc : TestCase) =>
          (bump acc.1 tc.TestCaseType, bump acc.2 tc.Subtype)) p tc
        = (bump p.1 tc.TestCaseType, bump p.2 tc.Subtype) := rfl
    constructor
    · simp only [List.foldl_cons, hbeta, List.length_cons]
      rw [h1, sumCounts_bump]
      omega
    · simp only [List.foldl_cons, hbeta, List.length_cons]
      rw [h2, sumCounts_bump]
      omega

theorem lookupCount_bump_isSome (counts : List (String × Nat)) (j k : String) :
    (lookupCount (bump counts j) k).isSome = true
      ↔ k = j ∨ (lookupCount counts k).isSome = true := by
  induction counts with
  | nil =>
    by_cases h : j == k
    · have h' : j = k := beq_iff_eq.mp h
      simp [bump, lookupCount, h, h']
    · have h' : ¬ j = k := fun e => h (beq_iff_eq.mpr e)
      simp only [bump, lookupCount, h, if_false, Bool.false_eq_true, Option.isSome_none]
      simp [eq_comm]
      exact h'
  | cons p rest ih =>
    obtain ⟨k0, v⟩ := p
    by_cases hj : k0 == j
    · have hj' : k0 = j := beq_iff_eq.mp hj
      by_cases hk : k0 == k
      · have hk' : k0 = k := beq_iff_eq.mp hk
        simp [bump, hj, lookupCount, hk, ← hk', hj']
      · have hkj : ¬ (k = j) := fun he => hk (beq_iff_eq.mpr (by rw [hj', ← he]))
        simp [bump, hj, lookupCount, hk, hkj]
    · by_cases hk : k0 == k
      · simp [bump, hj, lookupCount, hk]
      · simp [bump, hj, lookupCount, hk, ih]

/-- A key is present in a tally of the statistics loop exactly when it is
present in the accumulator or occurs among the records. -/
theorem talliesAux_keys (tcs : List TestCase) :
    ∀ (p : List (String × Nat) × List (String × Nat)) (k : String),
      ((lookupCount ((tcs.foldl
            (fun acc tc => (bump acc.1 tc.TestCaseType, bump acc.2 tc.Subtype)) p).1)
            k).isSome = true
        ↔ (lookupCount p.1 k).isSome = true ∨ k ∈ tcs.map TestCase.TestCaseType) ∧
      ((lookupCount ((tcs.foldl
            (fun acc tc => (bump acc.1 tc.TestCaseType, bump acc.2 tc.Subtype)) p).2)
            k).isSome = true
        ↔ (lookupCount p.2 k).isSome = true ∨ k ∈ tcs.map TestCase.Subtype) := by
  induction tcs with
  | nil => intro p k; simp
  | cons tc rest ih =>
    intro p k
    obtain ⟨h1, h2⟩ := ih (bump p.1 tc.TestCaseType, bump p.2 tc.Subtype) k
    have hbeta : (fun (acc : List (String × Nat) × List (String × Nat)) (tc : TestCase) =>
          (bump acc.1 tc.TestCaseType, bump acc.2 tc.Subtype)) p tc
        = (bump p.1 tc.TestCaseType, bump p.2 tc.Subtype) := rfl
    constructor
    · simp only [List.foldl_cons, hbeta, List.map_cons, List.mem_cons]
      rw [h1]
      rw [lookupCount_bump_isSome]
      tauto
    · simp only [List.foldl_cons, hbeta, List.map_cons, List.mem_cons]
      rw [h2]
      rw [lookupCount_bump_isSome]
      tauto

/-- Claim C4 as amended.  When the statistics are computed by the recovery
path (src/main_sdk.py lines 119-139), the reported total equals the number
of records and the values of each breakdown sum to that total; on the fast
path the returned summary is the parsed input taken verbatim, which need not
be consistent (see the counterexample). -/
theorem recovery_stats_consistent (tcs : List TestCase) :
    sumCounts (tallies tcs).1 = tcs.length ∧
    sumCounts (tallies tcs).2 = tcs.length ∧
    (pySubscript (buildResultJson tcs) "StatisticalSummary").bind
        (fun ss => pySubscript ss "TotalTestCases") = some (Json.num tcs.length) := by
  obtain ⟨h1, h2⟩ := talliesAux_sum tcs ([], [])
  refine ⟨?_, ?_, rfl⟩
  · simpa [sumCounts, tallies] using h1
  · simpa [sumCounts, tallies] using h2

/-- Claim C5 as amended.  A value appears as a key of a breakdown exactly
when it occurs among the recovered records: occurring values carry their
counts, and recognized-but-absent values are missing from the breakdown
rather than present with a zero value. -/
theorem breakdown_keys_iff_occurs (tcs : List TestCase) (k : String) :
    ((lookupCount (tallies tcs).1 k).isSome = true
        ↔ k ∈ tcs.map TestCase.TestCaseType) ∧
    ((lookupCount (tallies tcs).2 k).isSome = true
        ↔ k ∈ tcs.map TestCase.Subtype) := by
  obtain ⟨h1, h2⟩ := talliesAux_keys tcs ([], []) k
  constructor
  · simpa [lookupCount, tallies] using h1
  · simpa [lookupCount, tallies] using h2

/-- Claim C2 as amended.  Every record returned by the extraction has all
seven fields present (the record constructor populates each one), its
identifier is nonempty (the findall capture cannot be empty), and its steps
list is nonempty (an empty collection is replaced by the default sequence);
but the five scalar fields other than the identifier are non-empty only when
the input does not explicitly carry an empty string value for them, since
the defaults replace absent fields, not empty captures. -/
theorem extraction_id_and_steps_nonempty (text : String) (tc : TestCase)
    (h : tc ∈ super_simple_extraction text) :
    tc.TestCaseID ≠ "" ∧ tc.TestSteps ≠ [] :=
  mem_extraction_core h

/-- Witness for the amended C2 at the concrete input `c2text`. -/
theorem extraction_id_and_steps_nonempty_witness :
    c2tc ∈ super_simple_extraction c2text ∧ c2tc.TestCaseID ≠ "" ∧ c2tc.TestSteps ≠ [] :=
  ⟨by decide, extraction_id_and_steps_nonempty c2text c2tc (by decide)⟩

/-- Claim C8 (confirmed).  Fault isolation of the recovery extraction: the
accumulation loop never propagates a body error (its result is a plain list,
with the catch of lines 74-76 absorbing any exception value), and it equals
a filterMap over the identifier list in which an erroring identifier merely
contributes nothing, so every other identifier is still processed; in
particular this holds for `super_simple_extraction` itself with its actual
per-identifier body. -/
theorem extraction_never_raises_and_isolates :
    (∀ (body : String → Except String (Option TestCase)) (ids : List String),
        extractionLoop body ids
          = ids.filterMap (fun tcid =>
              match body tcid with
              | .ok r => r
              | .error _ => none)) ∧
    ∀ text : String,
        super_simple_extraction text
          = (findAllIds text.toList).filterMap (fun tcid =>
              match processTestCaseId text.toList tcid with
              | .ok r => r
              | .error _ => none) :=
  ⟨extractionLoop_eq_filterMap, fun _ => extractionLoop_eq_filterMap _ _⟩

theorem matchLit_append {l1 l2 cs r : List Char} (h : matchLit (l1 ++ l2) cs = some r) :
    ∃ mid, matchLit l1 cs = some mid ∧ matchLit l2 mid = some r := by
  induction l1 generalizing cs with
  | nil => exact ⟨cs, rfl, by simpa using h⟩
  | cons a as ih =>
    cases cs with
    | nil => simp [matchLit] at h
    | cons c cs2 =>
      simp only [List.cons_append, matchLit] at h ⊢
      by_cases hca : c == a
      · simp only [hca, if_true] at h ⊢
        exact ih h
      · simp [hca] at h

theorem matchFenceJson_isTriple {cs : List Char} {x : Bool × List Char}
    (h : matchFenceJson cs = some x) : isTripleBacktick cs = true := by
  unfold matchFenceJson at h
  cases h1 : matchLit "```json".toList cs with
  | none => rw [h1] at h; simp at h
  | some r1 =>
    have h2 : matchLit ("```".toList ++ "json".toList) cs = some r1 := by
      rw [show ("```".toList ++ "json".toList) = "```json".toList from by decide]
      exact h1
    obtain ⟨mid, hm, -⟩ := matchLit_append h2
    unfold isTripleBacktick
    rw [hm]
    rfl

theorem matchFencePlain_isTriple {cs : List Char} {x : Bool × List Char}
    (h : matchFencePlain cs = some x) : isTripleBacktick cs = true := by
  unfold matchFencePlain at h
  cases h1 : matchLit "```".toList cs with
  | none => rw [h1] at h; simp at h
  | some r1 =>
    unfold isTripleBacktick
    rw [h1]
    rfl

theorem matchFenceJson_eq_none {cs : List Char} (h : isTripleBacktick cs = false) :
    matchFenceJson cs = none := by
  cases hm : matchFenceJson cs with
  | none => rfl
  | some x => rw [matchFenceJson_isTriple hm] at h; exact absurd h (by simp)

theorem matchFencePlain_eq_none {cs : List Char} (h : isTripleBacktick cs = false) :
    matchFencePlain cs = none := by
  cases hm : matchFencePlain cs with
  | none => rfl
  | some x => rw [matchFencePlain_isTriple hm] at h; exact absurd h (by simp)

/-- A fence substitution leaves a text unchanged when no line of the text
starts with three backticks. -/
theorem fenceSubGo_id {m : List Char → Option (Bool × List Char)}
    (hm : ∀ cs, isTripleBacktick cs = false → m cs = none) :
    ∀ (fuel : Nat) (atStart : Bool) (cs : List Char),
      noFenceLines atStart cs = true → fenceSubGo m fuel atStart cs = cs := by
  intro fuel
  induction fuel with
  | zero => intro atStart cs _; rfl
  | succ fuel ih =>
    intro atStart cs h
    cases cs with
    | nil => rfl
    | cons c rest =>
      rw [noFenceLines] at h
      simp only [Bool.and_eq_true, Bool.or_eq_true] at h
      obtain ⟨h1, h2⟩ := h
      cases atStart with
      | false =>
        rw [fenceSubGo]
        simp only [Bool.false_eq_true, if_false]
        rw [ih _ _ h2]
      | true =>
        have hfence : isTripleBacktick (c :: rest) = false := by
          rcases h1 with h1 | h1
          · simp at h1
          · simpa using h1
        rw [fenceSubGo]
        simp only [if_true]
        rw [hm _ hfence, ih _ _ h2]

theorem subJsonFence_id {cs : List Char} (h : noFenceLines true cs = true) :
    subJsonFence cs = cs :=
  fenceSubGo_id (fun _ h2 => matchFenceJson_eq_none h2) _ true cs h

theorem subPlainFence_id {cs : List Char} (h : noFenceLines true cs = true) :
    subPlainFence cs = cs :=
  fenceSubGo_id (fun _ h2 => matchFencePlain_eq_none h2) _ true cs h

theorem dropWhile_head_false {p : Char → Bool} {l : List Char} {a : Char} {t : List Char}
    (h : l.dropWhile p = a :: t) : p a = false := by
  induction l with
  | nil => simp [List.dropWhile] at h
  | cons c cs ih =>
    rw [List.dropWhile_cons] at h
    by_cases pc : p c
    · simp only [pc, if_true] at h
      exact ih h
    · simp only [pc, if_false, Bool.false_eq_true] at h
      obtain ⟨rfl, -⟩ := List.cons.injEq .. ▸ h
      exact Bool.not_eq_true _ ▸ pc

/-- Stripping is idempotent. -/
theorem pyStrip_idem (l : List Char) : pyStrip (pyStrip l) = pyStrip l := by
  unfold pyStrip
  have hA : ((l.dropWhile isPyWs).reverse.dropWhile isPyWs).reverse.dropWhile isPyWs
      = ((l.dropWhile isPyWs).reverse.dropWhile isPyWs).reverse := by
    cases hwr : ((l.dropWhile isPyWs).reverse.dropWhile isPyWs).reverse with
    | nil => rfl
    | cons a t =>
      have hsuf : (l.dropWhile isPyWs).reverse.dropWhile isPyWs
          <:+ (l.dropWhile isPyWs).reverse := List.dropWhile_suffix _
      have hpre : ((l.dropWhile isPyWs).reverse.dropWhile isPyWs).reverse
          <+: l.dropWhile isPyWs := by
        have := List.reverse_prefix.mpr hsuf
        rwa [List.reverse_reverse] at this
      obtain ⟨t2, ht2⟩ := hpre
      rw [hwr] at ht2
      have hpa : isPyWs a = false := dropWhile_head_false (p := isPyWs) (l := l) (t := t ++ t2)
        (by rw [← ht2]; rfl)
      rw [List.dropWhile_cons, hpa]
      simp
  rw [hA, List.reverse_reverse, List.dropWhile_idempotent]

/-- Stripping leaves a text that starts with an opening brace and ends with
a closing brace unchanged. -/
theorem pyStrip_of_shape {y B P : List Char}
    (hB : y = '{' :: B) (hP : y = P ++ ['}']) : pyStrip y = y := by
  unfold pyStrip
  have h1 : y.dropWhile isPyWs = y := by
    rw [hB, List.dropWhile_cons]
    have : isPyWs '{' = false := by decide
    simp [this]
  rw [h1]
  have h2 : y.reverse = '}' :: P.reverse := by rw [hP]; simp
  rw [h2, List.dropWhile_cons]
  have : isPyWs '}' = false := by decide
  simp only [this, Bool.false_eq_true, if_false]
  rw [← h2, List.reverse_reverse]

theorem pyFind_drop {c : Char} {y : List Char} {s : Nat} (h : pyFind c y = some s) :
    ∃ B, y.drop s = c :: B := by
  induction y generalizing s with
  | nil => simp [pyFind] at h
  | cons x xs ih =>
    rw [pyFind] at h
    by_cases hx : x == c
    · simp only [hx, if_true, Option.some.injEq] at h
      subst h
      exact ⟨xs, by rw [List.drop_zero, beq_iff_eq.mp hx]⟩
    · simp only [hx, if_false, Bool.false_eq_true, Option.map_eq_some'] at h
      obtain ⟨j, hj, rfl⟩ := h
      obtain ⟨B, hB⟩ := ih hj
      exact ⟨B, by rwa [List.drop_succ_cons]⟩

theorem pyFind_reverse_decomp {c : Char} {y : List Char} {j : Nat}
    (h : pyFind c y.reverse = some j) :
    ∃ P Q, y = P ++ c :: Q ∧ P.length = y.length - 1 - j := by
  obtain ⟨K, hK⟩ := pyFind_drop h
  have hjlt : j < y.reverse.length := by
    by_contra hle
    rw [List.drop_eq_nil_of_le (by omega)] at hK
    exact List.noConfusion hK
  have h1 : y.reverse = y.reverse.take j ++ (c :: K) := by
    rw [← hK, List.take_append_drop]
  have hT : (y.reverse.take j).length = j := by
    rw [List.length_take]
    omega
  refine ⟨K.reverse, (y.reverse.take j).reverse, ?_, ?_⟩
  · have h2 := congrArg List.reverse h1
    rw [List.reverse_reverse] at h2
    conv_lhs => rw [h2]
    simp [List.reverse_append]
  · have hlen := congrArg List.length h1
    rw [List.length_reverse] at hlen
    simp only [List.length_append, List.length_cons, hT] at hlen
    rw [List.length_reverse]
    omega

theorem braceSlice_eval_some {y : List Char} {s j : Nat}
    (hf : pyFind '{' y = some s) (hr : pyFind '}' y.reverse = some j) :
    braceSlice y
      = if y.length - 1 - j > s then (y.drop s).take (y.length - 1 - j - s + 1) else y := by
  unfold braceSlice
  rw [hf, hr]

/-- Shape of a brace slice: either the defensive fallback returned the text
unchanged, or the result starts with the opening brace, ends with the
closing brace, and has at least two characters. -/
theorem braceSlice_shape (y : List Char) :
    braceSlice y = y ∨
    ∃ B P, braceSlice y = '{' :: B ∧ braceSlice y = P ++ ['}'] ∧
      2 ≤ (braceSlice y).length := by
  cases hf : pyFind '{' y with
  | none =>
    left
    unfold braceSlice
    rw [hf]
  | some s =>
    cases hr : pyFind '}' y.reverse with
    | none =>
      left
      unfold braceSlice
      rw [hf, hr]
    | some j =>
      rw [braceSlice_eval_some hf hr]
      by_cases he : y.length - 1 - j > s
      · rw [if_pos he]
        right
        obtain ⟨B0, hB0⟩ := pyFind_drop hf
        obtain ⟨P0, Q0, hy, hP⟩ := pyFind_reverse_decomp hr
        have hsP : s < P0.length := by omega
        have hdrop : y.drop s = P0.drop s ++ '}' :: Q0 := by
          rw [hy, List.drop_append_eq_append_drop]
          have : s - P0.length = 0 := by omega
          rw [this, List.drop_zero]
        have hlenP : (P0.drop s).length = y.length - 1 - j - s := by
          rw [List.length_drop]
          omega
        have htake : (y.drop s).take (y.length - 1 - j - s + 1)
            = P0.drop s ++ ['}'] := by
          rw [hdrop, List.take_append_eq_append_take]
          rw [List.take_of_length_le (by omega)]
          have : y.length - 1 - j - s + 1 - (P0.drop s).length = 1 := by omega
          rw [this]
          rfl
        refine ⟨(y.drop s).tail.take (y.length - 1 - j - s), P0.drop s, ?_, htake, ?_⟩
        · rw [hB0]
          rfl
        · rw [htake]
          simp only [List.length_append, List.length_cons, List.length_nil]
          omega
      · rw [if_neg he]
        exact Or.inl rfl

/-- A text that starts with an opening brace and ends with a closing brace
is its own brace slice. -/
theorem braceSlice_of_shape {y B P : List Char}
    (hB : y = '{' :: B) (hP : y = P ++ ['}']) (hlen : 2 ≤ y.length) :
    braceSlice y = y := by
  have hf : pyFind '{' y = some 0 := by
    rw [hB, pyFind]
    simp
  have hr : pyFind '}' y.reverse = some 0 := by
    have h2 : y.reverse = '}' :: P.reverse := by rw [hP]; simp
    rw [h2, pyFind]
    simp
  rw [braceSlice_eval_some hf hr, if_pos (by omega)]
  have h3 : y.length - 1 - 0 - 0 + 1 = y.length := by omega
  rw [h3, List.drop_zero, List.take_length]

/-- Evaluation of the normalizer on nonempty input. -/
theorem cleanList_eval {x : List Char} (hx : x.isEmpty = false) :
    cleanList x = braceSlice (pyStrip (subPlainFence (subJsonFence x))) := by
  simp [cleanList, hx]

/-- A second normalization pass is the identity whenever the first pass
produced a text with no line starting in a code fence. -/
theorem cleanList_fix {cs : List Char} (hnf : noFenceLines true (cleanList cs) = true) :
    cleanList (cleanList cs) = cleanList cs := by
  by_cases hcs : cs.isEmpty
  · have h0 : cs = [] := List.isEmpty_iff.mp hcs
    subst h0
    rfl
  · by_cases hre : (cleanList cs).isEmpty
    · have h0 : cleanList cs = [] := List.isEmpty_iff.mp hre
      rw [h0]
      rfl
    · rw [cleanList_eval (by simpa using hre), subJsonFence_id hnf, subPlainFence_id hnf]
      rw [cleanList_eval (by simpa using hcs)]
      have hstrip : pyStrip (pyStrip (subPlainFence (subJsonFence cs)))
          = pyStrip (subPlainFence (subJsonFence cs)) := pyStrip_idem _
      rcases braceSlice_shape (pyStrip (subPlainFence (subJsonFence cs))) with hid |
        ⟨B, P, hB, hP, hlen⟩
      · rw [hid, hstrip, hid]
      · rw [pyStrip_of_shape hB hP, braceSlice_of_shape hB hP (hB ▸ hlen)]

/-- Counterexample to claim C7.  The normalizer is not idempotent: on the
input consisting of a space, a json code fence tag and a second line, the
fence tag is not at a line start (a space precedes it), so the fence
substitutions leave it alone and the strip exposes it at the start of the
output; a second pass then removes it, changing the result. -/
theorem normalize_not_idempotent :
    clean_json_response (clean_json_response " ```json\nA")
      ≠ clean_json_response " ```json\nA" := by decide

/-- Claim C7 as amended.  The normalizer is idempotent on every input whose
first normalization contains no line starting with a code fence marker: on
such outputs both fence substitutions are the identity, stripping is
idempotent, and the brace slice is its own fixed point.  In general a second
pass can differ, because trimming whitespace can expose a fence marker at
the start of the output (see the counterexample). -/
theorem normalize_idempotent_of_no_fence (s : String)
    (h : noFenceLines true (clean_json_response s).toList = true) :
    clean_json_response (clean_json_response s) = clean_json_response s := by
  have h2 : noFenceLines true (cleanList s.toList) = true := h
  exact congrArg String.mk (cleanList_fix h2)

/-- Witness for the amended C7 at a concrete fence-free input. -/
theorem normalize_idempotent_witness :
    noFenceLines true (clean_json_response "abc").toList = true ∧
    clean_json_response (clean_json_response "abc") = clean_json_response "abc" :=
  ⟨by decide, normalize_idempotent_of_no_fence "abc" (by decide)⟩

/-- Input whose only record carries a present-but-empty steps block. -/
def c10text : String := "\"TestCaseID\": \"TC3\", \"TestSteps\": []"

/-- The record recovered from `c10text`. -/
def c10tc : TestCase :=
  { TestCaseID := "TC3", TestDescription := "Validation test for TC3",
    ExpectedOutput := "Expected system behavior validated",
    TestSteps := defaultSteps,
    PassFailCriteria := "Test passes when validation criteria are met",
    TestCaseType := "FUNCTIONAL", Subtype := "POSITIVE" }

/-- Claim C10 (confirmed).  A steps block that is present in the window but
contains no quoted strings produces the fixed three-step default sequence,
exactly as an absent block does, and the steps list of a recovered record is
never empty. -/
theorem empty_steps_block_defaulted :
    (∀ (chunk content : List Char), searchSteps chunk = some content →
        quotedStrings content = [] → stepsOf chunk = defaultSteps) ∧
    ∀ (text : String), ∀ tc ∈ super_simple_extraction text, tc.TestSteps ≠ [] := by
  constructor
  · intro chunk content hb he
    unfold stepsOf
    rw [hb]
    simp [he]
  · intro text tc h
    exact (mem_extraction_core h).2

/-- Witness for C10: the empty block of `c10chunk` is found and defaulted,
and the record recovered from `c10text` has the nonempty default steps. -/
theorem empty_steps_block_defaulted_witness :
    searchSteps c10chunk = some [] ∧ quotedStrings ([] : List Char) = [] ∧
    stepsOf c10chunk = defaultSteps ∧
    c10tc ∈ super_simple_extraction c10text ∧ c10tc.TestSteps ≠ [] :=
  ⟨by decide, rfl, empty_steps_block_defaulted.1 c10chunk [] (by decide) rfl,
   by decide, empty_steps_block_defaulted.2 c10text c10tc (by decide)⟩

end FhirExtract
